import Mathlib

/-!
Verification of the `AES256GCM` envelope cipher (`src/AES256GCM.ts`).

The envelope logic (key/nonce validation, buffer layout, base64 text codec,
error surfacing) is embedded directly from the source.  The AEAD primitive
itself (Node's `crypto` module, `aes-256-gcm`) is an external collaborator
that is not part of the repository's sources; it is modelled from the spec's
external-interface contract: a deterministic keystream XOR cipher producing a
ciphertext of the plaintext's length, together with a 16-byte authentication
tag depending on key, nonce and ciphertext, verified before decryption.

Bytes are `Nat` values below 256; strings are lists of character codes
(the nonce alphabet produced by the generator is ASCII hex, one byte per
character).  Thrown JavaScript `Error`s become `Except` errors tagged with
the spec's error taxonomy.  The source's try/catch wraps only
`decipher.update`/`decipher.final`, so the collaborator's own exceptions
(`createCipheriv`/`createDecipheriv` rejecting an empty IV, `setAuthTag`
rejecting a GCM tag length outside 4, 8 and 12-16 bytes) propagate uncaught
and are modelled by dedicated error values distinct from
`AuthenticationFailed`.
-/

namespace AES256GCM

/-- Error kinds.  The first six are the spec's error taxonomy: the source
throws plain `Error`s with fixed messages, and `InvalidKeyLength`,
`InvalidNonceLength` and `AuthenticationFailed` correspond to the three
messages the class itself can produce, while `MalformedBlob`,
`InvalidTextEncoding` and `RandomnessUnavailable` are named by the spec
only.  The last two model the crypto collaborator's own exceptions, which
escape the class uncaught because only `update`/`final` sit inside the
try/catch: `UncaughtInvalidIv` is `createCipheriv`/`createDecipheriv`
rejecting an empty initialization vector, and `UncaughtInvalidTagLength` is
`setAuthTag` rejecting a GCM tag whose length is not 4, 8 or 12-16 bytes. -/
inductive CryptoError where
  | InvalidKeyLength
  | InvalidNonceLength
  | AuthenticationFailed
  | MalformedBlob
  | InvalidTextEncoding
  | RandomnessUnavailable
  | UncaughtInvalidIv
  | UncaughtInvalidTagLength
deriving DecidableEq, Repr

/-- `keyLength = 32` (256 bits), from the class field. -/
def keyLength : Nat := 32

/-- `ivLength = 6` (6 characters), from the class field. -/
def ivLength : Nat := 6

/-- `authTagLength = 16` (128 bits), from the class field. -/
def authTagLength : Nat := 16

/-- Modelled from the spec: one byte of the deterministic GCM keystream for a
given key, nonce and stream position (the AEAD primitive is Node's
`crypto.createCipheriv("aes-256-gcm", ...)`, not part of the sources). -/
def keystreamByte (key nonce : List Nat) (i : Nat) : Nat :=
  (key.foldl (fun a b => a * 31 + b) 17 +
    nonce.foldl (fun a b => a * 131 + b) 7 + i * 97) % 256

/-- Modelled from the spec: the first `n` keystream bytes. -/
def keystream (key nonce : List Nat) (n : Nat) : List Nat :=
  (List.range n).map (keystreamByte key nonce)

/-- Pointwise XOR of two byte lists (truncated to the shorter one). -/
def xorBytes (a b : List Nat) : List Nat :=
  List.zipWith (· ^^^ ·) a b

/-- XOR of the bytes of `l` whose position (starting at `pos`) is congruent
to `j` modulo 16; accumulator column of the modelled authentication tag. -/
def colXor (j : Nat) : Nat → List Nat → Nat
  | _, [] => 0
  | pos, b :: rest => (if pos % 16 = j then b else 0) ^^^ colXor j (pos + 1) rest

/-- Modelled from the spec: the key/nonce/length-dependent mask byte mixed
into position `j` of the authentication tag. -/
def tagMask (key nonce : List Nat) (len j : Nat) : Nat :=
  keystreamByte key nonce (len * 16 + j + 1)

/-- Modelled from the spec: the 16-byte GCM authentication tag over a
ciphertext, bound to the key and nonce. -/
def computeTag (key nonce ct : List Nat) : List Nat :=
  (List.range authTagLength).map fun j => colXor j 0 ct ^^^ tagMask key nonce ct.length j

/-- Modelled from the spec: authenticated-encrypt of the AEAD primitive,
returning (ciphertext, tag); the ciphertext is the plaintext XOR keystream. -/
def aeadEncrypt (key nonce plaintext : List Nat) : List Nat × List Nat :=
  let ct := xorBytes plaintext (keystream key nonce plaintext.length)
  (ct, computeTag key nonce ct)

/-- Modelled from the spec: the AEAD collaborator's (Node GCM `setAuthTag`)
documented acceptance of authentication-tag lengths when no `authTagLength`
option is given: 4, 8 and 12-16 bytes; every other length throws an
uncaught error. -/
def validGcmTagLength (n : Nat) : Bool :=
  n = 4 || n = 8 || (12 <= n && n <= 16)

/-- Modelled from the spec: authenticated-decrypt of the AEAD primitive;
verify-then-decrypt, all-or-nothing: `none` when the tag does not match.
The supplied tag has already passed `setAuthTag`'s length check, and GCM
compares it against the computed 16-byte tag truncated to its length. -/
def aeadDecrypt (key nonce ct tag : List Nat) : Option (List Nat) :=
  if (computeTag key nonce ct).take tag.length = tag then
    some (xorBytes ct (keystream key nonce ct.length))
  else none

/-- Result record of `encrypt`, mirroring the source's return object
`{ encrypted, iv, authTag }`. -/
structure EncryptResult where
  encrypted : List Nat
  iv : List Nat
  authTag : List Nat
deriving DecidableEq, Repr

/-- `const ivString = fixedIv || this.generateRandomString()`: JavaScript
falsiness makes an absent or empty `fixedIv` select the generated string. -/
def chooseIv (fixedIv : Option (List Nat)) (genIv : List Nat) : List Nat :=
  match fixedIv with
  | some s => if s.isEmpty then genIv else s
  | none => genIv

/-- `fixedIv && fixedIv.length !== this.ivLength`: the nonce-length check
fires only for a truthy (present and nonempty) fixed IV of length ≠ 6. -/
def fixedIvBad : Option (List Nat) → Bool
  | some s => !s.isEmpty && s.length != ivLength
  | none => false

/-- `AES256GCM.encrypt`.  `genIv` stands for the string returned by the
`generateRandomString()` call (the only randomness), passed explicitly.
After the class's own checks, `createCipheriv` rejects an empty IV with an
uncaught error (reachable in the model only through an empty generator
string, since the real generator always returns 6 characters). -/
def encrypt (data key : List Nat) (fixedIv : Option (List Nat)) (genIv : List Nat) :
    Except CryptoError EncryptResult :=
  if key.length ≠ keyLength then .error .InvalidKeyLength
  else if fixedIvBad fixedIv then .error .InvalidNonceLength
  else
    let iv := chooseIv fixedIv genIv
    if iv.isEmpty then .error .UncaughtInvalidIv
    else
      let et := aeadEncrypt key iv data
      .ok ⟨et.1, iv, et.2⟩

/-- `AES256GCM.decrypt`: key-length check (line 105), then
`createDecipheriv` (line 115, outside the try/catch: an empty IV throws
uncaught), then `setAuthTag` (line 118, outside the try/catch: an invalid
GCM tag length throws uncaught), and finally the AEAD primitive's
verify-then-decrypt inside the try/catch, whose failure is caught and
surfaced as the "Decryption failed" error (`AuthenticationFailed`). -/
def decrypt (encrypted key iv authTag : List Nat) : Except CryptoError (List Nat) :=
  if key.length ≠ keyLength then .error .InvalidKeyLength
  else if iv.isEmpty then .error .UncaughtInvalidIv
  else if !validGcmTagLength authTag.length then .error .UncaughtInvalidTagLength
  else
    match aeadDecrypt key iv encrypted authTag with
    | some pt => .ok pt
    | none => .error .AuthenticationFailed

/-- `AES256GCM.encryptToBuffer`: `Buffer.concat([ivBuffer, authTag, encrypted])`. -/
def encryptToBuffer (data key : List Nat) (fixedIv : Option (List Nat)) (genIv : List Nat) :
    Except CryptoError (List Nat) :=
  (encrypt data key fixedIv genIv).map fun r => r.iv ++ r.authTag ++ r.encrypted

/-- `AES256GCM.decryptFromBuffer`: slices `[0,6)`, `[6,22)`, `[22,end)` with
`subarray` (no length validation) and calls `decrypt`. -/
def decryptFromBuffer (encryptedBuffer key : List Nat) : Except CryptoError (List Nat) :=
  let ivBuffer := encryptedBuffer.take ivLength
  let authTag := (encryptedBuffer.drop ivLength).take authTagLength
  let encrypted := encryptedBuffer.drop (ivLength + authTagLength)
  decrypt encrypted key ivBuffer authTag

/-- ASCII code of the base64 alphabet character for an index below 64. -/
def b64Char (n : Nat) : Nat :=
  if n < 26 then 65 + n
  else if n < 52 then 71 + n
  else if n < 62 then n - 4
  else if n = 62 then 43
  else 47

/-- Index of a base64 alphabet character; `none` for every other character.
Node's decoder also accepts the URL-safe alphabet (`-`, `_`) and silently
ignores characters outside the alphabet (including `=` padding). -/
def b64Index (c : Nat) : Option Nat :=
  if 65 ≤ c ∧ c ≤ 90 then some (c - 65)
  else if 97 ≤ c ∧ c ≤ 122 then some (c - 71)
  else if 48 ≤ c ∧ c ≤ 57 then some (c + 4)
  else if c = 43 ∨ c = 45 then some 62
  else if c = 47 ∨ c = 95 then some 63
  else none

/-- `Buffer.prototype.toString("base64")`: standard base64 with `=` padding
(61 is the code of `=`). -/
def base64Encode : List Nat → List Nat
  | [] => []
  | [a] => [b64Char (a / 4), b64Char (a % 4 * 16), 61, 61]
  | [a, b] => [b64Char (a / 4), b64Char (a % 4 * 16 + b / 16), b64Char (b % 16 * 4), 61]
  | a :: b :: c :: rest =>
      b64Char (a / 4) :: b64Char (a % 4 * 16 + b / 16) ::
        b64Char (b % 16 * 4 + c / 64) :: b64Char (c % 64) :: base64Encode rest

/-- Decode a list of 6-bit indices, 4 at a time into 3 bytes; a trailing
group of 2 or 3 indices yields 1 or 2 bytes, a lone index yields nothing
(Node's lenient base64 decoding). -/
def decodeIndexGroups : List Nat → List Nat
  | a :: b :: c :: d :: rest =>
      (a * 4 + b / 16) :: (b % 16 * 16 + c / 4) :: (c % 4 * 64 + d) :: decodeIndexGroups rest
  | [a, b] => [a * 4 + b / 16]
  | [a, b, c] => [a * 4 + b / 16, b % 16 * 16 + c / 4]
  | _ => []

/-- `Buffer.from(s, "base64")`: lenient decoding that drops every character
outside the base64 alphabet and never fails. -/
def base64Decode (s : List Nat) : List Nat :=
  decodeIndexGroups (s.filterMap b64Index)

/-- `AES256GCM.encryptToString`: encrypt to a buffer, then base64. -/
def encryptToString (data key : List Nat) (fixedIv : Option (List Nat)) (genIv : List Nat) :
    Except CryptoError (List Nat) :=
  (encryptToBuffer data key fixedIv genIv).map base64Encode

/-- `AES256GCM.decryptFromString`: lenient base64 decode, then buffer decode. -/
def decryptFromString (encryptedString key : List Nat) : Except CryptoError (List Nat) :=
  decryptFromBuffer (base64Decode encryptedString) key

/-- ASCII code of the lowercase hex digit for a value below 16. -/
def hexDigitChar (n : Nat) : Nat :=
  if n < 10 then 48 + n else 87 + n

/-- `Buffer.prototype.toString("hex")`: two lowercase hex characters per byte. -/
def toHexBytes : List Nat → List Nat
  | [] => []
  | b :: rest => hexDigitChar (b / 16) :: hexDigitChar (b % 16) :: toHexBytes rest

/-- `AES256GCM.generateRandomString`: hex-encode the random bytes and keep the
first 6 characters.  `randomBytes` stands for the output of
`crypto.randomBytes(6)` (the only randomness), passed explicitly. -/
def generateRandomString (randomBytes : List Nat) : List Nat :=
  (toHexBytes randomBytes).take ivLength

/-- Flip bit `b` of the byte at position `i` (used to state tamper claims). -/
def flipBit (l : List Nat) (i b : Nat) : List Nat :=
  l.set i (l.getD i 0 ^^^ 2 ^ b)

/-- A concrete 32-byte key used to evaluate theorems on concrete inputs. -/
def sampleKey : List Nat := List.replicate 32 7

/-- A concrete 6-character nonce string (`"abcdef"`). -/
def sampleIv : List Nat := [97, 98, 99, 100, 101, 102]

theorem length_keystream (key nonce : List Nat) (n : Nat) :
    (keystream key nonce n).length = n := by
  simp [keystream]

theorem length_xorBytes (a b : List Nat) :
    (xorBytes a b).length = min a.length b.length := by
  simp [xorBytes]

theorem length_computeTag (key nonce ct : List Nat) :
    (computeTag key nonce ct).length = 16 := by
  simp [computeTag, authTagLength]

theorem xorBytes_xorBytes : ∀ (p s : List Nat), p.length ≤ s.length →
    xorBytes (xorBytes p s) s = p
  | [], _, _ => rfl
  | _ :: _, [], h => by simp at h
  | a :: p, b :: s, h => by
    have ih := xorBytes_xorBytes p s (by simpa using h)
    simp only [xorBytes] at ih ⊢
    simp [List.zipWith_cons_cons, ih, Nat.xor_cancel_right]

theorem encrypt_eq_ok (data key : List Nat) (fixedIv : Option (List Nat)) (genIv : List Nat)
    (hK : key.length = keyLength) (hIv : fixedIvBad fixedIv = false)
    (hNe : (chooseIv fixedIv genIv).isEmpty = false) :
    encrypt data key fixedIv genIv =
      .ok ⟨xorBytes data (keystream key (chooseIv fixedIv genIv) data.length),
           chooseIv fixedIv genIv,
           computeTag key (chooseIv fixedIv genIv)
             (xorBytes data (keystream key (chooseIv fixedIv genIv) data.length))⟩ := by
  simp [encrypt, aeadEncrypt, hK, hIv, hNe]

theorem encrypt_ok_inv {data key : List Nat} {fixedIv : Option (List Nat)} {genIv : List Nat}
    {r : EncryptResult} (he : encrypt data key fixedIv genIv = .ok r) :
    key.length = keyLength ∧ fixedIvBad fixedIv = false ∧
    (chooseIv fixedIv genIv).isEmpty = false ∧
    r = ⟨xorBytes data (keystream key (chooseIv fixedIv genIv) data.length),
         chooseIv fixedIv genIv,
         computeTag key (chooseIv fixedIv genIv)
           (xorBytes data (keystream key (chooseIv fixedIv genIv) data.length))⟩ := by
  have hK : key.length = keyLength := by
    by_contra hk
    simp [encrypt, hk] at he
  have hIv : fixedIvBad fixedIv = false := by
    cases hfb : fixedIvBad fixedIv with
    | false => rfl
    | true => simp [encrypt, hK, hfb] at he
  have hNe : (chooseIv fixedIv genIv).isEmpty = false := by
    cases hne : (chooseIv fixedIv genIv).isEmpty with
    | false => rfl
    | true => simp [encrypt, hK, hIv, hne] at he
  refine ⟨hK, hIv, hNe, ?_⟩
  rw [encrypt_eq_ok data key fixedIv genIv hK hIv hNe] at he
  simpa using he.symm

theorem decrypt_encrypt_core (data key iv : List Nat) (hK : key.length = 32)
    (hiv : iv.isEmpty = false) :
    decrypt (xorBytes data (keystream key iv data.length)) key iv
      (computeTag key iv (xorBytes data (keystream key iv data.length))) = .ok data := by
  have hct : (xorBytes data (keystream key iv data.length)).length = data.length := by
    simp [length_xorBytes, length_keystream]
  have htl := length_computeTag key iv (xorBytes data (keystream key iv data.length))
  simp [decrypt, keyLength, hK, hiv, htl, validGcmTagLength, aeadDecrypt, hct]
  exact xorBytes_xorBytes data _ (le_of_eq (length_keystream key iv data.length).symm)

theorem keystreamByte_lt (key nonce : List Nat) (i : Nat) :
    keystreamByte key nonce i < 256 :=
  Nat.mod_lt _ (by decide)

theorem xor_lt_256 {x y : Nat} (hx : x < 256) (hy : y < 256) : x ^^^ y < 256 :=
  @Nat.xor_lt_two_pow x y 8 hx hy

theorem mem_keystream_lt (key nonce : List Nat) (n : Nat) :
    ∀ x ∈ keystream key nonce n, x < 256 := by
  simp only [keystream, List.mem_map]
  rintro x ⟨i, _, rfl⟩
  exact keystreamByte_lt key nonce i

theorem mem_xorBytes_lt : ∀ (a b : List Nat), (∀ x ∈ a, x < 256) → (∀ x ∈ b, x < 256) →
    ∀ x ∈ xorBytes a b, x < 256
  | [], _, _, _ => by simp [xorBytes]
  | _ :: _, [], _, _ => by simp [xorBytes]
  | a :: as, b :: bs, ha, hb => by
    simp only [xorBytes, List.zipWith_cons_cons, List.mem_cons]
    rintro x (rfl | hx)
    · exact xor_lt_256 (ha a (by simp)) (hb b (by simp))
    · exact mem_xorBytes_lt as bs (fun y hy => ha y (by simp [hy]))
        (fun y hy => hb y (by simp [hy])) x hx

theorem colXor_lt : ∀ (l : List Nat) (pos j : Nat), (∀ x ∈ l, x < 256) →
    colXor j pos l < 256
  | [], _, _, _ => by simp [colXor]
  | b :: rest, pos, j, h => by
    have hb : (if pos % 16 = j then b else 0) < 256 := by
      split
      · exact h b (by simp)
      · decide
    exact xor_lt_256 hb (colXor_lt rest (pos + 1) j (fun y hy => h y (by simp [hy])))

theorem mem_computeTag_lt (key nonce ct : List Nat) (hct : ∀ x ∈ ct, x < 256) :
    ∀ x ∈ computeTag key nonce ct, x < 256 := by
  simp only [computeTag, List.mem_map]
  rintro x ⟨j, _, rfl⟩
  exact xor_lt_256 (colXor_lt ct 0 j hct) (keystreamByte_lt _ _ _)

theorem b64Index_b64Char : ∀ n, n < 64 → b64Index (b64Char n) = some n := by decide

theorem base64_roundtrip : ∀ (l : List Nat), (∀ x ∈ l, x < 256) →
    base64Decode (base64Encode l) = l
  | [], _ => rfl
  | [a], h => by
    have ha : a < 256 := h a (by simp)
    have h1 := b64Index_b64Char (a / 4) (by omega)
    have h2 := b64Index_b64Char (a % 4 * 16) (by omega)
    simp only [base64Encode, base64Decode, List.filterMap_cons, h1, h2]
    norm_num [b64Index, decodeIndexGroups]
    omega
  | [a, b], h => by
    have ha : a < 256 := h a (by simp)
    have hb : b < 256 := h b (by simp)
    have h1 := b64Index_b64Char (a / 4) (by omega)
    have h2 := b64Index_b64Char (a % 4 * 16 + b / 16) (by omega)
    have h3 := b64Index_b64Char (b % 16 * 4) (by omega)
    simp only [base64Encode, base64Decode, List.filterMap_cons, h1, h2, h3]
    norm_num [b64Index, decodeIndexGroups]
    constructor <;> omega
  | a :: b :: c :: rest, h => by
    have ha : a < 256 := h a (by simp)
    have hb : b < 256 := h b (by simp)
    have hc : c < 256 := h c (by simp)
    have h1 := b64Index_b64Char (a / 4) (by omega)
    have h2 := b64Index_b64Char (a % 4 * 16 + b / 16) (by omega)
    have h3 := b64Index_b64Char (b % 16 * 4 + c / 64) (by omega)
    have h4 := b64Index_b64Char (c % 64) (by omega)
    have ih := base64_roundtrip rest (fun y hy => h y (by simp [hy]))
    simp only [base64Decode] at ih
    simp only [base64Encode, base64Decode, List.filterMap_cons, h1, h2, h3, h4,
      decodeIndexGroups, ih, List.cons.injEq, and_true]
    omega

theorem xor_two_pow_ne (x b : Nat) : x ^^^ 2 ^ b ≠ x := by
  intro h
  have h2 : x ^^^ (x ^^^ 2 ^ b) = x ^^^ x := by rw [h]
  rw [Nat.xor_cancel_left, Nat.xor_self] at h2
  exact absurd h2 (Nat.pos_iff_ne_zero.mp (Nat.two_pow_pos b))

theorem colXor_set (m : Nat) : ∀ (l : List Nat) (pos i j : Nat), i < l.length →
    colXor j pos (l.set i (l.getD i 0 ^^^ m)) =
      colXor j pos l ^^^ (if (pos + i) % 16 = j then m else 0)
  | [], _, i, _, hi => by simp at hi
  | x :: xs, pos, 0, j, _ => by
    simp only [List.set_cons_zero, List.getD_cons_zero, colXor, Nat.add_zero]
    by_cases hc : pos % 16 = j
    · rw [if_pos hc, if_pos hc, if_pos hc, Nat.xor_assoc, Nat.xor_assoc, Nat.xor_comm m]
    · simp [if_neg hc]
  | x :: xs, pos, i + 1, j, hi => by
    simp only [List.set_cons_succ, List.getD_cons_succ, colXor]
    rw [colXor_set m xs (pos + 1) i j (by simpa using hi)]
    have hpos : pos + 1 + i = pos + (i + 1) := by omega
    rw [hpos, Nat.xor_assoc]

theorem computeTag_getD (key nonce ct : List Nat) (j : Nat) (hj : j < 16) :
    (computeTag key nonce ct).getD j 0 =
      colXor j 0 ct ^^^ tagMask key nonce ct.length j := by
  simp [computeTag, authTagLength, List.getD_eq_getElem?_getD, List.getElem?_range hj]

theorem computeTag_flip (key nonce ct : List Nat) (i b : Nat) (hi : i < ct.length) :
    computeTag key nonce (flipBit ct i b) ≠ computeTag key nonce ct := by
  intro h
  have hj : i % 16 < 16 := Nat.mod_lt _ (by decide)
  have hlen : (flipBit ct i b).length = ct.length := by simp [flipBit]
  have hgd := congrArg (fun l => l.getD (i % 16) 0) h
  simp only [computeTag_getD _ _ _ _ hj, hlen] at hgd
  simp only [flipBit] at hgd
  rw [colXor_set (2 ^ b) ct 0 i (i % 16) hi] at hgd
  simp only [Nat.zero_add, if_pos rfl] at hgd
  exact xor_two_pow_ne _ b (Nat.xor_left_inj.mp hgd)

theorem flipBit_ne (l : List Nat) (i b : Nat) (hi : i < l.length) : flipBit l i b ≠ l := by
  intro h
  have hgd := congrArg (fun t => t.getD i 0) h
  simp only [flipBit, List.getD_eq_getElem?_getD, List.getElem?_set_self hi] at hgd
  exact xor_two_pow_ne _ b (by simpa using hgd)

theorem length_toHexBytes : ∀ l : List Nat, (toHexBytes l).length = 2 * l.length
  | [] => rfl
  | b :: rest => by
    simp [toHexBytes, length_toHexBytes rest]
    omega

theorem length_generateRandomString (l : List Nat) (h : 3 ≤ l.length) :
    (generateRandomString l).length = 6 := by
  simp [generateRandomString, ivLength, length_toHexBytes]
  omega

theorem blob_take_iv (iv tag ct : List Nat) (hiv : iv.length = 6) :
    (iv ++ tag ++ ct).take 6 = iv := by
  rw [List.append_assoc]
  exact List.take_left' hiv

theorem blob_take_tag (iv tag ct : List Nat) (hiv : iv.length = 6) (htag : tag.length = 16) :
    ((iv ++ tag ++ ct).drop 6).take 16 = tag := by
  rw [List.append_assoc, List.drop_left' hiv]
  exact List.take_left' htag

theorem blob_drop_ct (iv tag ct : List Nat) (hiv : iv.length = 6) (htag : tag.length = 16) :
    (iv ++ tag ++ ct).drop 22 = ct := by
  rw [List.append_assoc, show (22 : Nat) = 6 + 16 from rfl, ← List.drop_drop,
    List.drop_left' hiv, List.drop_left' htag]

/-- C1: Round-trip at each of the three layers.  For every byte plaintext
`data`, every 32-byte key and every generated 6-character nonce string,
`decrypt` applied to the (ciphertext, nonce, tag) produced by `encrypt`
returns `data`; `decryptFromBuffer` applied to the blob produced by
`encryptToBuffer` returns `data`; and `decryptFromString` applied to the
text produced by `encryptToString` returns `data`. -/
theorem c1_roundtrip (data key genIv : List Nat) (hK : key.length = 32)
    (hG : genIv.length = 6) (hdata : ∀ x ∈ data, x < 256) (hGb : ∀ x ∈ genIv, x < 256) :
    ((encrypt data key none genIv).bind fun r => decrypt r.encrypted key r.iv r.authTag)
        = .ok data ∧
    ((encryptToBuffer data key none genIv).bind fun blob => decryptFromBuffer blob key)
        = .ok data ∧
    ((encryptToString data key none genIv).bind fun s => decryptFromString s key)
        = .ok data := by
  have hGne : genIv.isEmpty = false := by
    cases genIv with
    | nil => simp at hG
    | cons a t => rfl
  have he := encrypt_eq_ok data key none genIv hK rfl hGne
  simp only [chooseIv] at he
  set ct := xorBytes data (keystream key genIv data.length) with hctdef
  set tag := computeTag key genIv ct with htagdef
  have htag : tag.length = 16 := length_computeTag key genIv ct
  have hctb : ∀ x ∈ ct, x < 256 :=
    mem_xorBytes_lt data _ hdata (mem_keystream_lt key genIv data.length)
  have hblob : decryptFromBuffer (genIv ++ tag ++ ct) key = .ok data := by
    simp only [decryptFromBuffer, ivLength, authTagLength]
    rw [blob_take_iv _ _ _ hG, blob_take_tag _ _ _ hG htag,
      show (6 + 16 : Nat) = 22 from rfl, blob_drop_ct _ _ _ hG htag]
    exact decrypt_encrypt_core data key genIv hK hGne
  have hb : ∀ x ∈ genIv ++ tag ++ ct, x < 256 := by
    intro x hx
    simp only [List.append_assoc, List.mem_append] at hx
    rcases hx with hx | hx | hx
    · exact hGb x hx
    · exact mem_computeTag_lt key genIv ct hctb x hx
    · exact hctb x hx
  refine ⟨?_, ?_, ?_⟩
  · rw [he]
    exact decrypt_encrypt_core data key genIv hK hGne
  · simp only [encryptToBuffer, he, Except.map, Except.bind]
    exact hblob
  · simp only [encryptToString, encryptToBuffer, decryptFromString, he,
      Except.map, Except.bind, base64_roundtrip _ hb]
    exact hblob

/-- C1 witness: the round-trip theorem evaluated at the plaintext "hi",
a concrete 32-byte key and the nonce "abcdef". -/
theorem c1_witness :
    ((encrypt [104, 105] sampleKey none sampleIv).bind
        fun r => decrypt r.encrypted sampleKey r.iv r.authTag) = .ok [104, 105] ∧
    ((encryptToBuffer [104, 105] sampleKey none sampleIv).bind
        fun blob => decryptFromBuffer blob sampleKey) = .ok [104, 105] ∧
    ((encryptToString [104, 105] sampleKey none sampleIv).bind
        fun s => decryptFromString s sampleKey) = .ok [104, 105] :=
  c1_roundtrip [104, 105] sampleKey sampleIv (by decide) (by decide) (by decide) (by decide)

/-- C2: Tamper sensitivity.  For every (ciphertext, nonce, tag) produced by
`encrypt`, flipping any single bit of the ciphertext, or any single bit of
the tag, makes `decrypt` fail with `AuthenticationFailed`; the error result
carries no plaintext. -/
theorem c2_tamper (data key genIv : List Nat) (fixedIv : Option (List Nat))
    (r : EncryptResult) (i b : Nat)
    (he : encrypt data key fixedIv genIv = .ok r) (hb : b < 8) :
    (i < r.encrypted.length →
      decrypt (flipBit r.encrypted i b) key r.iv r.authTag
        = .error CryptoError.AuthenticationFailed) ∧
    (i < r.authTag.length →
      decrypt r.encrypted key r.iv (flipBit r.authTag i b)
        = .error CryptoError.AuthenticationFailed) := by
  obtain ⟨hK, -, hNe, rfl⟩ := encrypt_ok_inv he
  dsimp only
  set iv := chooseIv fixedIv genIv with hivdef
  set ct := xorBytes data (keystream key iv data.length) with hctdef
  constructor
  · intro hi
    have hne := computeTag_flip key iv ct i b hi
    have hcond : ¬((computeTag key iv (flipBit ct i b)).take 16
        = computeTag key iv ct) := by
      rw [← length_computeTag key iv (flipBit ct i b), List.take_length]
      exact hne
    simp [decrypt, keyLength, hK, hNe, length_computeTag, validGcmTagLength,
      aeadDecrypt, hcond]
  · intro hi
    have hlen' : (flipBit (computeTag key iv ct) i b).length = 16 := by
      simp [flipBit, length_computeTag]
    have hcond : ¬((computeTag key iv ct).take 16
        = flipBit (computeTag key iv ct) i b) := by
      rw [← length_computeTag key iv ct, List.take_length]
      exact (flipBit_ne (computeTag key iv ct) i b hi).symm
    simp [decrypt, keyLength, hK, hNe, hlen', validGcmTagLength, aeadDecrypt, hcond]

/-- C2 witness: flipping bit 0 of the first ciphertext byte, or bit 0 of the
first tag byte, of a concrete encryption makes `decrypt` fail. -/
theorem c2_witness :
    decrypt (flipBit (xorBytes [10, 20] (keystream sampleKey sampleIv 2)) 0 0)
        sampleKey sampleIv
        (computeTag sampleKey sampleIv (xorBytes [10, 20] (keystream sampleKey sampleIv 2)))
      = .error CryptoError.AuthenticationFailed ∧
    decrypt (xorBytes [10, 20] (keystream sampleKey sampleIv 2)) sampleKey sampleIv
        (flipBit (computeTag sampleKey sampleIv
          (xorBytes [10, 20] (keystream sampleKey sampleIv 2))) 0 0)
      = .error CryptoError.AuthenticationFailed := by
  have he := encrypt_eq_ok [10, 20] sampleKey none sampleIv (by decide) rfl (by decide)
  have h := c2_tamper [10, 20] sampleKey sampleIv none _ 0 0 he (by decide)
  exact ⟨h.1 (by decide), h.2 (by decide)⟩

/-- C3 counterexample: a 10-byte blob (shorter than 22 bytes) under a valid
32-byte key does not fail with `MalformedBlob`; the code performs no length
check: it slices a 6-byte IV and a 4-byte tag (an accepted truncated-tag
length for GCM), attempts the cryptographic decode, and the tag comparison
fails inside the try/catch, surfacing `AuthenticationFailed`. -/
theorem c3_counterexample :
    (List.replicate 10 0).length < 22 ∧
    decryptFromBuffer (List.replicate 10 0) sampleKey
      = .error CryptoError.AuthenticationFailed ∧
    decryptFromBuffer (List.replicate 10 0) sampleKey
      ≠ .error CryptoError.MalformedBlob := by
  have h : decryptFromBuffer (List.replicate 10 0) sampleKey
      = .error CryptoError.AuthenticationFailed := by rfl
  exact ⟨by decide, h, by rw [h]; simp⟩

/-- C3 amended: `decryptFromBuffer` never fails with `MalformedBlob` (no
such check or error exists in the code): for every input blob and key the
sliced pieces are handed to `decrypt`, so a short blob reaches the
cryptographic path, whose outcome depends on the sliced lengths (an
uncaught invalid-IV or invalid-tag-length error, a caught
`AuthenticationFailed`, or even success when a 4/8/12-15-byte truncated tag
matches) — but never `MalformedBlob`. -/
theorem c3_no_malformed_blob (blob key : List Nat) :
    decryptFromBuffer blob key ≠ .error CryptoError.MalformedBlob := by
  simp only [decryptFromBuffer, decrypt]
  split
  · simp
  · split
    · simp
    · split
      · simp
      · split <;> simp

/-- C4 counterexample: the string `"!!!"` is not valid base64, yet
`decryptFromString` does not fail with `InvalidTextEncoding`: Node's base64
decoding silently drops the invalid characters, yielding the empty blob,
whose empty 6-byte IV slice is rejected by `createDecipheriv` with an
uncaught invalid-IV error — a decryption-path failure, not a text-encoding
check. -/
theorem c4_counterexample :
    base64Decode [33, 33, 33] = [] ∧
    decryptFromString [33, 33, 33] sampleKey
      = .error CryptoError.UncaughtInvalidIv ∧
    decryptFromString [33, 33, 33] sampleKey
      ≠ .error CryptoError.InvalidTextEncoding := by
  have h : decryptFromString [33, 33, 33] sampleKey
      = .error CryptoError.UncaughtInvalidIv := by rfl
  exact ⟨rfl, h, by rw [h]; simp⟩

/-- C4 amended: `decryptFromString` never fails with `InvalidTextEncoding`:
base64 decoding is lenient (characters outside the alphabet are discarded)
and never fails, so the buffer decode and decryption are always attempted
and every failure comes from that path — key validation, the uncaught
invalid-IV / invalid-tag-length errors of the cipher construction, or the
caught `AuthenticationFailed`. -/
theorem c4_no_text_encoding_error (s key : List Nat) :
    decryptFromString s key ≠ .error CryptoError.InvalidTextEncoding := by
  simp only [decryptFromString, decryptFromBuffer, decrypt]
  split
  · simp
  · split
    · simp
    · split
      · simp
      · split <;> simp

/-- C5 counterexample: the empty string is a supplied fixed nonce of length
0 ≠ 6, yet `encrypt` succeeds (JavaScript falsiness treats `""` as absent)
instead of failing with `InvalidNonceLength`. -/
theorem c5_counterexample :
    (([] : List Nat)).length ≠ 6 ∧
    (∃ r, encrypt [104, 105] sampleKey (some []) sampleIv = .ok r) ∧
    encrypt [104, 105] sampleKey (some []) sampleIv
      ≠ .error CryptoError.InvalidNonceLength := by
  have he := encrypt_eq_ok [104, 105] sampleKey (some []) sampleIv
    (by decide) (by decide) (by decide)
  exact ⟨by decide, ⟨_, he⟩, by rw [he]; simp⟩

/-- C5 amended: every supplied *nonempty* fixed nonce whose length is not 6
characters makes `encrypt` (and hence `encryptToBuffer` and
`encryptToString`) fail with `InvalidNonceLength`; nothing is encrypted or
returned in that case. -/
theorem c5_bad_nonce_rejected (data key n genIv : List Nat) (hK : key.length = 32)
    (hne : n ≠ []) (hlen : n.length ≠ 6) :
    encrypt data key (some n) genIv = .error CryptoError.InvalidNonceLength ∧
    encryptToBuffer data key (some n) genIv = .error CryptoError.InvalidNonceLength ∧
    encryptToString data key (some n) genIv = .error CryptoError.InvalidNonceLength := by
  have hbad : fixedIvBad (some n) = true := by
    cases n with
    | nil => exact absurd rfl hne
    | cons a l =>
      simp only [fixedIvBad, List.isEmpty_cons, Bool.not_false, Bool.true_and,
        bne_iff_ne, ne_eq, ivLength]
      exact hlen
  have h1 : encrypt data key (some n) genIv = .error CryptoError.InvalidNonceLength := by
    simp [encrypt, keyLength, hK, hbad]
  refine ⟨h1, ?_, ?_⟩
  · simp [encryptToBuffer, h1, Except.map]
  · simp [encryptToString, encryptToBuffer, h1, Except.map]

/-- C5 witness: the amended statement evaluated at the 2-character fixed
nonce `[1, 2]`. -/
theorem c5_witness :
    encrypt [104, 105] sampleKey (some [1, 2]) sampleIv
      = .error CryptoError.InvalidNonceLength ∧
    encryptToBuffer [104, 105] sampleKey (some [1, 2]) sampleIv
      = .error CryptoError.InvalidNonceLength ∧
    encryptToString [104, 105] sampleKey (some [1, 2]) sampleIv
      = .error CryptoError.InvalidNonceLength :=
  c5_bad_nonce_rejected [104, 105] sampleKey [1, 2] sampleIv (by decide) (by decide) (by decide)

/-- C6: every key whose length is not 32 bytes is rejected by both `encrypt`
and `decrypt` with `InvalidKeyLength`; the rejection is the first check, so
no cryptographic operation runs. -/
theorem c6_bad_key_rejected (data ct iv tag key : List Nat)
    (fixedIv : Option (List Nat)) (genIv : List Nat) (hK : key.length ≠ 32) :
    encrypt data key fixedIv genIv = .error CryptoError.InvalidKeyLength ∧
    decrypt ct key iv tag = .error CryptoError.InvalidKeyLength := by
  constructor
  · simp [encrypt, keyLength, hK]
  · simp [decrypt, keyLength, hK]

/-- C6 witness: the theorem evaluated at a 1-byte key. -/
theorem c6_witness :
    encrypt [1] [0] none sampleIv = .error CryptoError.InvalidKeyLength ∧
    decrypt [2] [0] sampleIv [3] = .error CryptoError.InvalidKeyLength :=
  c6_bad_key_rejected [1] [2] sampleIv [3] [0] none sampleIv (by decide)

/-- C7: blob layout.  For every plaintext and 32-byte key (nonce generated),
the blob returned by `encryptToBuffer` has length exactly `22 + len(data)`;
its first 6 bytes are the nonce used by the underlying `encrypt` call, the
next 16 bytes are the authentication tag, and the rest is the raw
ciphertext. -/
theorem c7_blob_layout (data key genIv : List Nat) (hK : key.length = 32)
    (hG : genIv.length = 6) :
    ∃ r, encrypt data key none genIv = .ok r ∧
      encryptToBuffer data key none genIv = .ok (r.iv ++ r.authTag ++ r.encrypted) ∧
      (r.iv ++ r.authTag ++ r.encrypted).length = 22 + data.length ∧
      (r.iv ++ r.authTag ++ r.encrypted).take 6 = r.iv ∧
      ((r.iv ++ r.authTag ++ r.encrypted).drop 6).take 16 = r.authTag ∧
      (r.iv ++ r.authTag ++ r.encrypted).drop 22 = r.encrypted := by
  have hGne : genIv.isEmpty = false := by
    cases genIv with
    | nil => simp at hG
    | cons a t => rfl
  have he := encrypt_eq_ok data key none genIv hK rfl hGne
  simp only [chooseIv] at he
  refine ⟨_, he, ?_, ?_, ?_, ?_, ?_⟩ <;>
    dsimp only
  · simp [encryptToBuffer, he, Except.map]
  · have hct : (xorBytes data (keystream key genIv data.length)).length = data.length := by
      simp [length_xorBytes, length_keystream]
    simp [hG, length_computeTag, hct]
    omega
  · exact blob_take_iv _ _ _ hG
  · exact blob_take_tag _ _ _ hG (length_computeTag _ _ _)
  · exact blob_drop_ct _ _ _ hG (length_computeTag _ _ _)

/-- C7 witness: the layout theorem evaluated at a 3-byte plaintext. -/
theorem c7_witness :
    ∃ r, encrypt [1, 2, 3] sampleKey none sampleIv = .ok r ∧
      encryptToBuffer [1, 2, 3] sampleKey none sampleIv
        = .ok (r.iv ++ r.authTag ++ r.encrypted) ∧
      (r.iv ++ r.authTag ++ r.encrypted).length = 22 + [1, 2, 3].length ∧
      (r.iv ++ r.authTag ++ r.encrypted).take 6 = r.iv ∧
      ((r.iv ++ r.authTag ++ r.encrypted).drop 6).take 16 = r.authTag ∧
      (r.iv ++ r.authTag ++ r.encrypted).drop 22 = r.encrypted :=
  c7_blob_layout [1, 2, 3] sampleKey sampleIv (by decide) (by decide)

/-- C8: encryption with a supplied 6-character fixed nonce is deterministic:
the result (ciphertext, nonce and tag alike) does not depend on the random
string the generator would supply, so two calls with the same
(key, nonce, plaintext) triple yield identical output. -/
theorem c8_deterministic (data key n genIv1 genIv2 : List Nat)
    (hK : key.length = 32) (hN : n.length = 6) :
    encrypt data key (some n) genIv1 = encrypt data key (some n) genIv2 := by
  have hne : n.isEmpty = false := by
    cases n with
    | nil => simp at hN
    | cons a l => rfl
  simp [encrypt, chooseIv, hne]

/-- C8 witness: two concrete calls with the fixed nonce "abcdef" and
different generator outputs coincide. -/
theorem c8_witness :
    encrypt [1, 2] sampleKey (some sampleIv) []
      = encrypt [1, 2] sampleKey (some sampleIv) [9] :=
  c8_deterministic [1, 2] sampleKey sampleIv [] [9] (by decide) (by decide)

/-- C9: for every successful encryption the ciphertext has exactly the byte
length of the plaintext (no padding) and the authentication tag is exactly
16 bytes. -/
theorem c9_lengths {data key : List Nat} {fixedIv : Option (List Nat)}
    {genIv : List Nat} {r : EncryptResult}
    (he : encrypt data key fixedIv genIv = .ok r) :
    r.encrypted.length = data.length ∧ r.authTag.length = 16 := by
  obtain ⟨-, -, -, rfl⟩ := encrypt_ok_inv he
  constructor
  · simp [length_xorBytes, length_keystream]
  · exact length_computeTag _ _ _

/-- C9 witness: the length theorem evaluated at a 3-byte plaintext. -/
theorem c9_witness :
    ∃ r, encrypt [5, 6, 7] sampleKey none sampleIv = .ok r ∧
      r.encrypted.length = 3 ∧ r.authTag.length = 16 := by
  have he := encrypt_eq_ok [5, 6, 7] sampleKey none sampleIv (by decide) rfl (by decide)
  exact ⟨_, he, (c9_lengths he).1, (c9_lengths he).2⟩

/-- C10: an empty string supplied as the fixed nonce is falsy in JavaScript,
so it is treated as absent: `encrypt` does not fail with
`InvalidNonceLength`, behaves exactly as a call without a fixed nonce, and
succeeds using the generated 6-character nonce. -/
theorem c10_empty_fixed_iv (data key randomBytes : List Nat)
    (hK : key.length = 32) (hR : randomBytes.length = 6) :
    encrypt data key (some []) (generateRandomString randomBytes)
      = encrypt data key none (generateRandomString randomBytes) ∧
    ∃ r, encrypt data key (some []) (generateRandomString randomBytes) = .ok r ∧
      r.iv = generateRandomString randomBytes ∧ r.iv.length = 6 := by
  have hgen : (generateRandomString randomBytes).length = 6 :=
    length_generateRandomString randomBytes (by omega)
  constructor
  · simp [encrypt, chooseIv, fixedIvBad]
  · have hne : (generateRandomString randomBytes).isEmpty = false := by
      cases h : generateRandomString randomBytes with
      | nil => rw [h] at hgen; simp at hgen
      | cons a l => rfl
    have he := encrypt_eq_ok data key (some [])
      (generateRandomString randomBytes) hK (by decide) hne
    simp only [chooseIv, List.isEmpty_nil, if_true] at he
    exact ⟨_, he, rfl, hgen⟩

/-- C10 witness: the theorem evaluated at concrete random bytes
`[0, 1, 2, 3, 4, 5]` (whose hex prefix is the nonce "000102"). -/
theorem c10_witness :
    encrypt [1] sampleKey (some []) (generateRandomString [0, 1, 2, 3, 4, 5])
      = encrypt [1] sampleKey none (generateRandomString [0, 1, 2, 3, 4, 5]) ∧
    ∃ r, encrypt [1] sampleKey (some []) (generateRandomString [0, 1, 2, 3, 4, 5]) = .ok r ∧
      r.iv = generateRandomString [0, 1, 2, 3, 4, 5] ∧ r.iv.length = 6 :=
  c10_empty_fixed_iv [1] sampleKey [0, 1, 2, 3, 4, 5] (by decide) (by decide)

end AES256GCM
